import Mathlib

/-!
# Verification of the TuneHarvester metadata pipeline (src/app.py)

Shallow embedding of the pure core of `MusicDownloader`: the metadata
resolver (`get_best_metadata`), the YouTube title parser
(`extract_metadata_from_youtube_title`), the Last.fm response handling
(`get_lastfm_track_info`, `search_lastfm_album_info`), filename
sanitization (`sanitize_filename`), and the playlist file writer/reader
(`create_playlist_file_from_spotify` / `load_tracks_from_file`).

Modelling conventions:
* Python dicts with optional keys become structures with `Option` fields;
  `d.get(k, default)` becomes `Option.getD`.
* HTTP calls are replaced by an explicit response argument (`none` models
  any transport error, non-200 status, or missing top-level key: the code
  treats all of these identically, returning its default record).
* Python regexes are compiled by hand into executable functions on
  `List Char`, following leftmost-match and greedy/lazy backtracking
  semantics. `.`, `$` and the character classes are modelled for
  single-line (newline-free) strings; `\s` and `str.strip()` are modelled
  over the ASCII whitespace set.
-/

namespace TuneHarvester

/-- ASCII whitespace, the characters matched by `\s` (and stripped by
`str.strip()`) on ASCII text. -/
def pySpace (c : Char) : Bool :=
  c = ' ' || c = '\t' || c = '\n' || c = '\r' || c = '\x0b' || c = '\x0c'

/-- Drop leading whitespace (left part of `str.strip()`). -/
def stripL (cs : List Char) : List Char := cs.dropWhile pySpace

/-- Drop trailing whitespace (right part of `str.strip()`). -/
def stripR (cs : List Char) : List Char := (cs.reverse.dropWhile pySpace).reverse

/-- `str.strip()` on a character list. -/
def pyStripList (cs : List Char) : List Char := stripR (stripL cs)

/-- Python `str.strip()`. -/
def pyStrip (s : String) : String := ⟨pyStripList s.data⟩

/-- `", ".join(l)`, used pervasively for the `artist` display string. -/
def joinComma (l : List String) : String := String.intercalate ", " l

/-- A metadata dict as consumed by `get_best_metadata`: every key is
optional, `d.get(key, default)` supplies the defaults. -/
structure SourceRecord where
  title : Option String := none
  artist : Option String := none
  artists : Option (List String) := none
  album : Option String := none
  year : Option String := none
deriving DecidableEq, Repr

/-- The merged record built by `get_best_metadata` (the `final_metadata`
dict): all keys always present. -/
structure FinalMetadata where
  title : String
  artist : String
  artists : List String
  album : String
  year : String
  source : String
deriving DecidableEq, Repr

/-- The pristine `final_metadata` defaults (app.py lines 340-347). -/
def defaultMetadata : FinalMetadata :=
  { title := "Unknown Title", artist := "Unknown Artist",
    artists := ["Unknown Artist"], album := "Unknown Album",
    year := "", source := "combined" }

/-- Response model for `album.getInfo` (`search_lastfm_album_info`):
`wiki` key optional, `published` key inside it optional. -/
structure LfmAlbumWiki where
  published : Option String
deriving DecidableEq, Repr

structure LfmAlbumData where
  wiki : Option LfmAlbumWiki
deriving DecidableEq, Repr

/-- `re.search(r'\d{4}', s)`: the leftmost window of four consecutive
decimal digits, if any. -/
def first4DigitRun : List Char → Option String
  | c1 :: c2 :: c3 :: c4 :: rest =>
    if c1.isDigit && c2.isDigit && c3.isDigit && c4.isDigit then
      some ⟨[c1, c2, c3, c4]⟩
    else
      first4DigitRun (c2 :: c3 :: c4 :: rest)
  | _ => none

/-- `search_lastfm_album_info` (app.py 246-281), reduced to the `year`
value of the returned dict. `none` models transport errors, non-200
status, or a missing `album` key; all yield `{'year': ''}`. -/
def search_lastfm_album_info (resp : Option LfmAlbumData) : String :=
  match resp with
  | none => ""
  | some ad =>
    match ad.wiki with
    | none => ""
    | some w =>
      match w.published with
      | none => ""
      | some p => (first4DigitRun p.data).getD ""

/-- `get_best_metadata` (app.py 335-391) instrumented with the list of
`(artist, title)` argument pairs passed to `search_lastfm_album_info`.
`albumResp a t` is the parsed `album.getInfo` response for that call.
The `query` parameter is kept because the Python function takes it. -/
def get_best_metadata_aux (albumResp : String → String → Option LfmAlbumData)
    (spotify_metadata lastfm_metadata youtube_metadata : Option SourceRecord)
    (query : String) : FinalMetadata × List (String × String) :=
  let d := defaultMetadata
  match spotify_metadata with
  | some r =>
    ({ title := r.title.getD d.title, artist := r.artist.getD d.artist,
       artists := r.artists.getD d.artists, album := r.album.getD d.album,
       year := r.year.getD d.year, source := "spotify" }, [])
  | none =>
    match lastfm_metadata with
    | some r =>
      ({ title := r.title.getD d.title, artist := r.artist.getD d.artist,
         artists := r.artists.getD d.artists, album := r.album.getD d.album,
         year := r.year.getD d.year, source := "lastfm" }, [])
    | none =>
      match youtube_metadata with
      | some r =>
        let m : FinalMetadata :=
          { title := r.title.getD d.title, artist := r.artist.getD d.artist,
            artists := r.artists.getD d.artists, album := d.album,
            year := d.year, source := "youtube" }
        if m.artist ≠ "Unknown Artist" then
          let y := search_lastfm_album_info (albumResp m.artist m.title)
          (if y ≠ "" then { m with year := y } else m, [(m.artist, m.title)])
        else
          (m, [])
      | none => (d, [])

/-- `get_best_metadata` proper: the merged record. -/
def get_best_metadata (albumResp : String → String → Option LfmAlbumData)
    (spotify_metadata lastfm_metadata youtube_metadata : Option SourceRecord)
    (query : String) : FinalMetadata :=
  (get_best_metadata_aux albumResp spotify_metadata lastfm_metadata
    youtube_metadata query).1

/-- The `(artist, title)` pairs `get_best_metadata` sends to
`search_lastfm_album_info` during one evaluation. -/
def get_best_metadata_lookups
    (albumResp : String → String → Option LfmAlbumData)
    (spotify_metadata lastfm_metadata youtube_metadata : Option SourceRecord)
    (query : String) : List (String × String) :=
  (get_best_metadata_aux albumResp spotify_metadata lastfm_metadata
    youtube_metadata query).2

/-! ## Title parser (`extract_metadata_from_youtube_title`, app.py 283-333) -/

/-- Leftmost-match test for the suffix regexes
`\s*\([^)]*\)\s*$` and `\s*\[[^\]]*\]\s*$` (with `op`/`cl` the bracket
pair): does `cs`, taken whole, match?  Backtracking is vacuous here: the
open bracket is not whitespace, and the inner class cannot cross the
closing bracket, so every step is forced. -/
def suffixGroupMatch (op cl : Char) (cs : List Char) : Bool :=
  match cs.dropWhile pySpace with
  | c :: rest =>
    if c = op then
      match rest.dropWhile (fun x => !(x = cl)) with
      | c2 :: after => c2 = cl && after.all pySpace
      | [] => false
    else false
  | [] => false

/-- Start index of the leftmost (hence unique, being anchored at `$`)
match of the suffix regex, if any. -/
def findSuffixStart (op cl : Char) : List Char → Option Nat
  | [] => none
  | c :: cs =>
    if suffixGroupMatch op cl (c :: cs) then some 0
    else (findSuffixStart op cl cs).map (· + 1)

/-- `re.sub(r'\s*\(op...cl\)\s*$', '', s)`: delete the trailing bracketed
group together with the surrounding whitespace. -/
def stripSuffixGroup (op cl : Char) (s : String) : String :=
  match findSuffixStart op cl s.data with
  | some i => ⟨s.data.take i⟩
  | none => s

/-- The two cleaning substitutions of app.py 289-290: first the trailing
parenthetical, then the trailing bracketed suffix. -/
def cleanYoutubeTitle (s : String) : String :=
  stripSuffixGroup '[' ']' (stripSuffixGroup '(' ')' s)

/-- Split at the first occurrence of `sep`: `some (before, after)`, the
separator excluded, or `none` when absent. -/
def splitAtFirstChar (sep : Char) : List Char → Option (List Char × List Char)
  | [] => none
  | c :: cs =>
    if c = sep then some ([], cs)
    else (splitAtFirstChar sep cs).map (fun p => (c :: p.1, p.2))

/-- `\s*(.+)$` on newline-free `post`: greedy whitespace skip, backing
off just enough to leave the mandatory nonempty group.  Fails only when
`post` is empty. -/
def wsSkipGroup (post : List Char) : Option (List Char) :=
  match post with
  | [] => none
  | _ =>
    let d := post.dropWhile pySpace
    if d = [] then some (post.drop (post.length - 1)) else some d

/-- One of the first three patterns `^([^X]+)X\s*(.+)$` (X the separator
character `-`, `•` or `:`).  The greedy class `[^X]+` is forced to stop
at the first `X`, so the match is the first-occurrence split with a
nonempty prefix. -/
def matchSimpleSep (sep : Char) (cs : List Char) : Option (List Char × List Char) :=
  match splitAtFirstChar sep cs with
  | some (pre, post) =>
    if pre = [] then none
    else (wsSkipGroup post).map (fun g => (pre, g))
  | none => none

/-- The fourth pattern `^(.+?)\s*-\s*(.+)$`: lazy first group, so the
earliest split point wins; after the candidate prefix the whitespace run
must lead directly to a `-` (whitespace cannot match `-`, so no further
backtracking), then `\s*(.+)$` as above. -/
def matchFlexDashGo (acc : List Char) : List Char → Option (List Char × List Char)
  | [] => none
  | c :: rest =>
    let acc' := c :: acc
    match rest.dropWhile pySpace with
    | '-' :: rest2 =>
      match wsSkipGroup rest2 with
      | some g => some (acc'.reverse, g)
      | none => matchFlexDashGo acc' rest
    | _ => matchFlexDashGo acc' rest

def matchFlexDash (cs : List Char) : Option (List Char × List Char) :=
  matchFlexDashGo [] cs

/-- The ordered pattern list of app.py 293-298, first match wins. -/
def matchTitlePatterns (cs : List Char) : Option (List Char × List Char) :=
  match matchSimpleSep '-' cs with
  | some g => some g
  | none =>
    match matchSimpleSep '•' cs with
    | some g => some g
    | none =>
      match matchSimpleSep ':' cs with
      | some g => some g
      | none => matchFlexDash cs

/-- Case-insensitive literal match: strip `word` (given lowercase) from
the head of `cs`, comparing through `Char.toLower` (re.IGNORECASE). -/
def stripLiteralCI : List Char → List Char → Option (List Char)
  | [], cs => some cs
  | _ :: _, [] => none
  | p :: ps, c :: cs => if c.toLower = p.toLower then stripLiteralCI ps cs else none

/-- `\s+` followed by maximal-greedy consumption: at least one whitespace
character, then the rest of the run. -/
def wsPlusTail : List Char → Option (List Char)
  | [] => none
  | c :: rest => if pySpace c then some (rest.dropWhile pySpace) else none

/-- The tail of a worded separator alternative, `\.?\s+`, applied after
the literal word has been consumed.  The optional dot is greedy, trying
the dot-consuming branch first and backtracking to the dotless one. -/
def wordSepDot (hasDot : Bool) (r2 : List Char) : Option (List Char) :=
  match (if hasDot then
      (match r2 with | '.' :: r3 => wsPlusTail r3 | _ => none)
    else none) with
  | some r => some r
  | none => wsPlusTail r2

/-- One worded alternative of the artist-separator regex,
`\s+WORD\.?\s+` (`hasDot` = whether the optional dot is in the pattern):
returns the remainder after the greedy match, `none` when the
alternative does not match here. -/
def wordSepAt (word : String) (hasDot : Bool) (cs : List Char) : Option (List Char) :=
  match cs with
  | [] => none
  | c :: rest =>
    if pySpace c then
      match stripLiteralCI word.data (rest.dropWhile pySpace) with
      | some r2 => wordSepDot hasDot r2
      | none => none
    else none

/-- The artist-separator alternation
`(?:,|\s+feat\.?\s+|\s+ft\.?\s+|\s+&\s+|\s+x\s+|\s+con\s+)` (app.py 308)
tried at the head of `cs`: remainder after the first alternative that
matches. -/
def trySepAt (cs : List Char) : Option (List Char) :=
  match cs with
  | ',' :: rest => some rest
  | _ =>
    match wordSepAt "feat" true cs with
    | some r => some r
    | none =>
      match wordSepAt "ft" true cs with
      | some r => some r
      | none =>
        match wordSepAt "&" false cs with
        | some r => some r
        | none =>
          match wordSepAt "x" false cs with
          | some r => some r
          | none => wordSepAt "con" false cs

theorem dropWhile_length_le (p : Char → Bool) :
    ∀ l : List Char, (l.dropWhile p).length ≤ l.length := by
  intro l
  induction l with
  | nil => simp [List.dropWhile]
  | cons c cs ih =>
    simp only [List.dropWhile]
    split
    · exact Nat.le_succ_of_le ih
    · simp

theorem stripLiteralCI_length_le :
    ∀ w cs r, stripLiteralCI w cs = some r → r.length ≤ cs.length := by
  intro w
  induction w with
  | nil =>
    intro cs r h
    simp only [stripLiteralCI, Option.some.injEq] at h
    subst h
    exact Nat.le_refl _
  | cons p ps ih =>
    intro cs r h
    cases cs with
    | nil => simp [stripLiteralCI] at h
    | cons c cs' =>
      simp only [stripLiteralCI] at h
      split at h
      · exact Nat.le_succ_of_le (ih cs' r h)
      · exact absurd h (by simp)

theorem wsPlusTail_length_lt :
    ∀ cs r, wsPlusTail cs = some r → r.length < cs.length := by
  intro cs r h
  cases cs with
  | nil => simp [wsPlusTail] at h
  | cons c rest =>
    simp only [wsPlusTail] at h
    split at h
    · cases h
      exact Nat.lt_succ_of_le (dropWhile_length_le _ _)
    · exact absurd h (by simp)

theorem wordSepDot_length_lt (d : Bool) (r2 r : List Char)
    (h : wordSepDot d r2 = some r) : r.length < r2.length + 1 := by
  unfold wordSepDot at h
  split at h
  case h_1 rr heq =>
    cases h
    split at heq
    · split at heq
      case h_1 r3 =>
        have := wsPlusTail_length_lt _ _ heq
        simp only [List.length_cons] at *
        omega
      case h_2 => exact absurd heq (by simp)
    · exact absurd heq (by simp)
  case h_2 =>
    have := wsPlusTail_length_lt _ _ h
    omega

theorem wordSepAt_length_lt (w : String) (d : Bool) (cs r : List Char)
    (h : wordSepAt w d cs = some r) : r.length < cs.length := by
  cases cs with
  | nil => simp [wordSepAt] at h
  | cons c rest =>
    simp only [wordSepAt] at h
    split at h
    · split at h
      case h_1 r2 h2 =>
        have hr2 : r2.length ≤ rest.length :=
          le_trans (stripLiteralCI_length_le _ _ _ h2)
            (dropWhile_length_le _ _)
        have := wordSepDot_length_lt _ _ _ h
        simp only [List.length_cons]
        omega
      case h_2 => exact absurd h (by simp)
    · exact absurd h (by simp)

theorem trySepAt_length_lt (cs r : List Char)
    (h : trySepAt cs = some r) : r.length < cs.length := by
  unfold trySepAt at h
  split at h
  · cases h
    exact Nat.lt_succ_self _
  · split at h
    case h_1 h1 => cases h; exact wordSepAt_length_lt _ _ _ _ h1
    case h_2 =>
      split at h
      case h_1 h2 => cases h; exact wordSepAt_length_lt _ _ _ _ h2
      case h_2 =>
        split at h
        case h_1 h3 => cases h; exact wordSepAt_length_lt _ _ _ _ h3
        case h_2 =>
          split at h
          case h_1 h4 => cases h; exact wordSepAt_length_lt _ _ _ _ h4
          case h_2 => exact wordSepAt_length_lt _ _ _ _ h

/-- `re.split` with the artist-separator alternation: scan left to
right, breaking a new token at every position where the alternation
matches.  Fuel-indexed so the recursion is structural (hence kernel
computable); every separator match consumes at least one character, so
fuel `cs.length` never runs out (`pySplitSepGo_fuel_irrelevant`). -/
def pySplitSepGo (fuel : Nat) (acc cs : List Char) : List (List Char) :=
  match fuel, cs with
  | _, [] => [acc.reverse]
  | 0, c :: cs' => [acc.reverse ++ c :: cs']
  | f + 1, c :: cs' =>
    match trySepAt (c :: cs') with
    | some rest => acc.reverse :: pySplitSepGo f [] rest
    | none => pySplitSepGo f (c :: acc) cs'

theorem pySplitSepGo_fuel_irrelevant :
    ∀ f1 : Nat, ∀ f2 : Nat, ∀ acc cs : List Char,
      cs.length ≤ f1 → cs.length ≤ f2 →
      pySplitSepGo f1 acc cs = pySplitSepGo f2 acc cs := by
  intro f1
  induction f1 with
  | zero =>
    intro f2 acc cs h1 _
    cases cs with
    | nil => cases f2 <;> rfl
    | cons c cs' => simp at h1
  | succ f ih =>
    intro f2 acc cs h1 h2
    cases cs with
    | nil => cases f2 <;> rfl
    | cons c cs' =>
      cases f2 with
      | zero => simp at h2
      | succ f2' =>
        simp only [pySplitSepGo]
        cases hsep : trySepAt (c :: cs') with
        | some rest =>
          have hr := trySepAt_length_lt _ _ hsep
          simp only [List.length_cons] at h1 h2 hr
          show acc.reverse :: pySplitSepGo f [] rest =
            acc.reverse :: pySplitSepGo f2' [] rest
          rw [ih f2' [] rest (by omega) (by omega)]
        | none =>
          simp only [List.length_cons] at h1 h2
          show pySplitSepGo f (c :: acc) cs' = pySplitSepGo f2' (c :: acc) cs'
          exact ih f2' (c :: acc) cs' (by omega) (by omega)

def pySplitSep (cs : List Char) : List (List Char) :=
  pySplitSepGo cs.length [] cs

/-- The artist post-processing loop of app.py 307-314: split the raw
artist segment, strip each part, keep the nonempty ones. -/
def splitArtists (raw : String) : List String :=
  ((pySplitSep raw.data).map (fun t => pyStrip ⟨t⟩)).filter (fun a => a ≠ "")

/-- The dict returned by `extract_metadata_from_youtube_title`: its keys
are exactly `title`, `artist`, `artists`, `source`. -/
structure ParsedTitle where
  title : String
  artist : String
  artists : List String
  source : String
deriving DecidableEq, Repr

/-- `extract_metadata_from_youtube_title` (app.py 283-333).  The
`except` branch is unreachable (no operation in the body raises), so the
function is total.  Note the fallback returns the cleaned title
*unstripped* (app.py 325), while pattern matching runs on the stripped
cleaned title (app.py 301). -/
def extract_metadata_from_youtube_title (title : String) : ParsedTitle :=
  let clean_title := cleanYoutubeTitle title
  match matchTitlePatterns (pyStrip clean_title).data with
  | some (g1, g2) =>
    let raw_artists := pyStrip ⟨g1⟩
    let song_title := pyStrip ⟨g2⟩
    let artists := splitArtists raw_artists
    { title := song_title, artist := joinComma artists,
      artists := artists, source := "youtube" }
  | none =>
    { title := clean_title, artist := "Unknown Artist",
      artists := ["Unknown Artist"], source := "youtube_fallback" }

/-! ## Last.fm track info (`get_lastfm_track_info`, app.py 206-244) -/

/-- The `attr` object inside the `album` object of a `track.getInfo`
response: its `year` key is optional. -/
structure LfmTrackAlbumAttr where
  year : Option String
deriving DecidableEq, Repr

/-- The `album` object of a `track.getInfo` response: `title` and
`attr` keys optional. -/
structure LfmTrackAlbum where
  title : Option String
  attr : Option LfmTrackAlbumAttr
deriving DecidableEq, Repr

/-- The `track` object of a `track.getInfo` response.  `album = none`
models both an absent `album` key and a falsy (empty) album value: the
code guards with `'album' in track_data and track_data['album']`. -/
structure LfmTrackData where
  album : Option LfmTrackAlbum
deriving DecidableEq, Repr

/-- The dict returned by `get_lastfm_track_info`: always both keys. -/
structure LfmTrackInfo where
  album : String
  year : String
deriving DecidableEq, Repr

/-- `get_lastfm_track_info` (app.py 206-244).  `resp = none` models a
transport error, a non-200 status, or a missing `track` key; all reach
the final `return {'album': 'Unknown Album', 'year': ''}`. -/
def get_lastfm_track_info (resp : Option LfmTrackData) : LfmTrackInfo :=
  match resp with
  | none => { album := "Unknown Album", year := "" }
  | some td =>
    match td.album with
    | none => { album := "Unknown Album", year := "" }
    | some alb =>
      { album := alb.title.getD "Unknown Album",
        year := match alb.attr with
                | some a => a.year.getD ""
                | none => "" }

/-! ## Provider record constructors -/

/-- The track dict built by `extract_spotify_playlist_with_api` for one
playlist entry (app.py 142-150), as seen by `get_best_metadata`: every
metadata key present. -/
def mkSpotifyRecord (track_name : String) (artists : List String)
    (album release_date : String) : SourceRecord :=
  { title := some track_name,
    artist := some (joinComma artists),
    artists := some artists,
    album := some album,
    year := some (if release_date = "" then "" else release_date.take 4) }

/-- The search query string built for the same entry (app.py 141). -/
def mkSpotifyQuery (artists : List String) (track_name : String) : String :=
  String.intercalate " " artists ++ " " ++ track_name

/-- The dict returned by `search_lastfm_track` on a hit (app.py
192-199): title and artist from the search match, album and year from
`get_lastfm_track_info`, `artists` the singleton of the artist. -/
def mkLastfmRecord (name artist : String) (info : LfmTrackInfo) : SourceRecord :=
  { title := some name,
    artist := some artist,
    artists := some [artist],
    album := some info.album,
    year := some info.year }

/-- A parsed YouTube title as passed to `get_best_metadata` (app.py
700-703): the dict has no `album` or `year` keys. -/
def mkYoutubeRecord (p : ParsedTitle) : SourceRecord :=
  { title := some p.title,
    artist := some p.artist,
    artists := some p.artists,
    album := none,
    year := none }

/-! ## Playlist file writer and reader (app.py 414-438 and 515-534) -/

/-- The query lines written by the loop of app.py 424-425: each query
followed by a newline, in order. -/
def queriesText : List String → String
  | [] => ""
  | q :: qs => q ++ "\n" ++ queriesText qs

/-- The full text written by `create_playlist_file_from_spotify` (app.py
417-425): five header comment lines, a blank line (the fifth write ends
in two newlines), then one query per line. -/
def create_playlist_content (spotify_url : String) (track_count : Nat)
    (created : String) (queries : List String) : String :=
  "# Playlist automatically extracted from Spotify" ++ "\n" ++
  ("# URL: " ++ spotify_url) ++ "\n" ++
  ("# Total tracks: " ++ toString track_count) ++ "\n" ++
  "# Method: Official Spotify API" ++ "\n" ++
  ("# Created: " ++ created) ++ "\n" ++ "\n" ++
  queriesText queries

/-- Split a character stream into lines at every `'\n'`.  This models
`readlines` followed by the per-line `strip()` of the reader: `strip`
removes the terminators `readlines` keeps, and the extra empty final
line produced by a trailing `'\n'` is discarded by the reader's
emptiness test. -/
def splitLines : List Char → List (List Char)
  | [] => [[]]
  | c :: cs =>
    if c = '\n' then [] :: splitLines cs
    else
      match splitLines cs with
      | [] => [[c]]
      | l :: ls => (c :: l) :: ls

/-- The track dict built by `load_tracks_from_file` for one kept line
(app.py 525-529). -/
structure FileTrack where
  title : String
  query : String
  artist : String
deriving DecidableEq, Repr

/-- One line of `load_tracks_from_file`'s loop (app.py 522-528): strip,
then keep the line when nonempty and not starting with `#`. -/
def keepLine (l : List Char) : Option FileTrack :=
  match pyStripList l with
  | [] => none
  | c :: t =>
    if c = '#' then none
    else some { title := ⟨c :: t⟩, query := ⟨c :: t⟩, artist := "" }

/-- `load_tracks_from_file` (app.py 515-534) on the file's contents. -/
def load_tracks_from_file (content : String) : List FileTrack :=
  (splitLines content.data).filterMap keepLine

/-- `sanitize_filename` (app.py 475-477): `re.sub(r'[<>:"/\\|?*]', '',
filename)` deletes every occurrence of a reserved character; a
single-character class substitution is exactly a filter. -/
def reservedChar (c : Char) : Bool :=
  c = '<' || c = '>' || c = ':' || c = '"' || c = '/' ||
  c = '\\' || c = '|' || c = '?' || c = '*'

def sanitize_filename (filename : String) : String :=
  ⟨filename.data.filter (fun c => !(reservedChar c))⟩

/-! ## Library lemmas about `dropWhile` and the strip functions -/

theorem dropWhile_append_of_exists (p : Char → Bool) :
    ∀ l1 l2 : List Char, (∃ x ∈ l1, p x = false) →
      (l1 ++ l2).dropWhile p = l1.dropWhile p ++ l2 := by
  intro l1
  induction l1 with
  | nil => intro l2 h; rcases h with ⟨x, hx, _⟩; cases hx
  | cons c cs ih =>
    intro l2 h
    by_cases hc : p c
    · rcases h with ⟨x, hx, hpx⟩
      rcases List.mem_cons.mp hx with rfl | hx'
      · rw [hc] at hpx; cases hpx
      · simp only [List.cons_append, List.dropWhile_cons, hc, if_true]
        exact ih l2 ⟨x, hx', hpx⟩
    · rw [Bool.not_eq_true] at hc
      simp [List.dropWhile_cons, hc]

theorem dropWhile_append_of_all (p : Char → Bool) :
    ∀ l1 l2 : List Char, (∀ x ∈ l1, p x = true) →
      (l1 ++ l2).dropWhile p = l2.dropWhile p := by
  intro l1
  induction l1 with
  | nil => intro l2 _; rfl
  | cons c cs ih =>
    intro l2 h
    simp only [List.cons_append, List.dropWhile_cons,
      h c (List.mem_cons_self c cs), if_true]
    exact ih l2 (fun x hx => h x (List.mem_cons_of_mem c hx))

theorem dropWhile_head_false (p : Char → Bool) :
    ∀ (l : List Char) (c : Char) (t : List Char),
      l.dropWhile p = c :: t → p c = false := by
  intro l
  induction l with
  | nil => intro c t h; cases h
  | cons a as ih =>
    intro c t h
    rw [List.dropWhile_cons] at h
    by_cases ha : p a
    · rw [if_pos ha] at h; exact ih c t h
    · rw [if_neg ha] at h
      cases h
      simpa using ha

theorem mem_of_mem_dropWhile (p : Char → Bool) :
    ∀ (l : List Char) (x : Char), x ∈ l.dropWhile p → x ∈ l := by
  intro l
  induction l with
  | nil => intro x h; cases h
  | cons a as ih =>
    intro x h
    rw [List.dropWhile_cons] at h
    by_cases ha : p a
    · rw [if_pos ha] at h; exact List.mem_cons_of_mem a (ih x h)
    · rw [if_neg ha] at h; exact h

theorem dropWhile_eq_nil_iff_all (p : Char → Bool) (l : List Char) :
    l.dropWhile p = [] ↔ ∀ x ∈ l, p x = true := by
  induction l with
  | nil => simp
  | cons a as ih =>
    rw [List.dropWhile_cons]
    by_cases ha : p a
    · rw [if_pos ha]
      constructor
      · intro h x hx
        rcases List.mem_cons.mp hx with rfl | hx'
        · exact ha
        · exact ih.mp h x hx'
      · intro h; exact ih.mpr (fun x hx => h x (List.mem_cons_of_mem a hx))
    · rw [if_neg ha]
      constructor
      · intro h; cases h
      · intro h
        exact absurd (h a (List.mem_cons_self a as)) ha

theorem dropWhile_idem (p : Char → Bool) (l : List Char) :
    (l.dropWhile p).dropWhile p = l.dropWhile p := by
  cases h : l.dropWhile p with
  | nil => rfl
  | cons c t =>
    have hc := dropWhile_head_false p l c t h
    rw [List.dropWhile_cons, hc]
    simp

theorem stripL_append (l1 l2 : List Char) (h : ∃ x ∈ l1, pySpace x = false) :
    stripL (l1 ++ l2) = stripL l1 ++ l2 :=
  dropWhile_append_of_exists pySpace l1 l2 h

theorem stripR_append (l1 l2 : List Char) (h : ∃ x ∈ l2, pySpace x = false) :
    stripR (l1 ++ l2) = l1 ++ stripR l2 := by
  unfold stripR
  rw [List.reverse_append]
  rw [dropWhile_append_of_exists pySpace l2.reverse l1.reverse
    (by rcases h with ⟨x, hx, hpx⟩; exact ⟨x, List.mem_reverse.mpr hx, hpx⟩)]
  rw [List.reverse_append, List.reverse_reverse]

theorem stripR_nil : stripR [] = [] := rfl

theorem stripR_idem (l : List Char) : stripR (stripR l) = stripR l := by
  unfold stripR
  rw [List.reverse_reverse, dropWhile_idem]

theorem stripL_idem (l : List Char) : stripL (stripL l) = stripL l :=
  dropWhile_idem pySpace l

theorem stripR_cons_of_not_space (c : Char) (t : List Char)
    (hc : pySpace c = false) : ∃ t', stripR (c :: t) = c :: t' := by
  unfold stripR
  rw [List.reverse_cons]
  cases h : t.reverse.dropWhile pySpace with
  | nil =>
    have hall := (dropWhile_eq_nil_iff_all pySpace t.reverse).mp h
    rw [dropWhile_append_of_all pySpace t.reverse [c] hall]
    exact ⟨[], by simp [List.dropWhile_cons, hc]⟩
  | cons d ds =>
    have hex : ∃ x ∈ t.reverse, pySpace x = false :=
      ⟨d, mem_of_mem_dropWhile pySpace t.reverse d
        (h ▸ List.mem_cons_self d ds), dropWhile_head_false pySpace t.reverse d ds h⟩
    rw [dropWhile_append_of_exists pySpace t.reverse [c] hex]
    exact ⟨(t.reverse.dropWhile pySpace).reverse, by
      rw [List.reverse_append]
      rfl⟩

theorem stripR_eq_nil_iff (l : List Char) :
    stripR l = [] ↔ ∀ x ∈ l, pySpace x = true := by
  unfold stripR
  constructor
  · intro h x hx
    have : l.reverse.dropWhile pySpace = [] := by
      cases hd : l.reverse.dropWhile pySpace with
      | nil => rfl
      | cons c t => rw [hd] at h; simp at h
    exact (dropWhile_eq_nil_iff_all pySpace l.reverse).mp this x
      (List.mem_reverse.mpr hx)
  · intro h
    rw [(dropWhile_eq_nil_iff_all pySpace l.reverse).mpr
      (fun x hx => h x (List.mem_reverse.mp hx))]
    rfl

theorem stripL_cons_of_space (c : Char) (t : List Char)
    (hc : pySpace c = true) : stripL (c :: t) = stripL t := by
  simp [stripL, List.dropWhile, hc]

theorem stripL_cons_of_not_space (c : Char) (t : List Char)
    (hc : pySpace c = false) : stripL (c :: t) = c :: t := by
  simp [stripL, List.dropWhile, hc]

theorem stripL_stripR_comm (l : List Char) :
    stripL (stripR l) = stripR (stripL l) := by
  induction l with
  | nil => rfl
  | cons c t ih =>
    by_cases hc : pySpace c
    · rw [stripL_cons_of_space c t hc]
      cases ht : t.reverse.dropWhile pySpace with
      | nil =>
        have hall := (dropWhile_eq_nil_iff_all pySpace t.reverse).mp ht
        have hRt : stripR t = [] := by
          unfold stripR
          rw [ht]
          rfl
        have hRct : stripR (c :: t) = [] := by
          unfold stripR
          rw [List.reverse_cons, dropWhile_append_of_all pySpace t.reverse [c] hall]
          simp [List.dropWhile, hc]
        rw [hRct, ← ih, hRt]
      | cons d ds =>
        have hex : ∃ x ∈ t, pySpace x = false :=
          ⟨d, List.mem_reverse.mp (mem_of_mem_dropWhile pySpace t.reverse d
            (ht ▸ List.mem_cons_self d ds)),
           dropWhile_head_false pySpace t.reverse d ds ht⟩
        have hRct : stripR (c :: t) = c :: stripR t := by
          have h2 : (c :: t : List Char) = [c] ++ t := rfl
          rw [h2, stripR_append [c] t hex]
          rfl
        rw [hRct, stripL_cons_of_space c (stripR t) hc, ih]
    · rw [Bool.not_eq_true] at hc
      rw [stripL_cons_of_not_space c t hc]
      rcases stripR_cons_of_not_space c t hc with ⟨t', ht'⟩
      rw [ht', stripL_cons_of_not_space c t' hc]

theorem pyStripList_idem (l : List Char) :
    pyStripList (pyStripList l) = pyStripList l := by
  unfold pyStripList
  rw [stripL_stripR_comm (stripL l), stripL_idem, stripR_idem]

/-! ## Claim theorems -/

/-- C1: for every non-absent curated-catalog (Spotify) record — here a
record carrying all five metadata fields, as the Spotify extractor
always produces — and any social (Last.fm) record and parsed title,
`get_best_metadata` returns the curated record's fields exactly, tagged
with the curated-catalog source tag `spotify`; nothing is taken from
the other inputs. -/
theorem resolver_curated_priority
    (albumResp : String → String → Option LfmAlbumData)
    (t a alb y : String) (al : List String)
    (lastfm_metadata youtube_metadata : Option SourceRecord) (query : String) :
    get_best_metadata albumResp
      (some { title := some t, artist := some a, artists := some al,
              album := some alb, year := some y })
      lastfm_metadata youtube_metadata query =
    { title := t, artist := a, artists := al, album := alb, year := y,
      source := "spotify" } := rfl

/-- C2: with all three provider inputs absent, `get_best_metadata`
returns exactly the default record, tagged `combined`. -/
theorem resolver_all_absent_defaults
    (albumResp : String → String → Option LfmAlbumData) (query : String) :
    get_best_metadata albumResp none none none query =
    { title := "Unknown Title", artist := "Unknown Artist",
      artists := ["Unknown Artist"], album := "Unknown Album",
      year := "", source := "combined" } := rfl

/-- C10: `get_best_metadata` never reads its `query` parameter: with the
provider inputs and lookup behaviour fixed, any two query values give
identical results. -/
theorem resolver_ignores_query
    (albumResp : String → String → Option LfmAlbumData)
    (spotify_metadata lastfm_metadata youtube_metadata : Option SourceRecord)
    (q1 q2 : String) :
    get_best_metadata albumResp spotify_metadata lastfm_metadata
      youtube_metadata q1 =
    get_best_metadata albumResp spotify_metadata lastfm_metadata
      youtube_metadata q2 := rfl

/-- C8: `sanitize_filename` removes every reserved character
`<>:"/\|?*` and keeps all other characters of the input in their
original relative order (its output is exactly the filter of the input
by non-reservedness). -/
theorem sanitize_filename_spec (s : String) :
    ((sanitize_filename s).data.all (fun c => !(reservedChar c))) = true ∧
    (sanitize_filename s).data = s.data.filter (fun c => !(reservedChar c)) := by
  constructor
  · rw [List.all_eq_true]
    intro c hc
    exact (List.mem_filter.mp hc).2
  · rfl

/-- C5: in the fallback branch (no curated record, no social record,
parsed title present), the result's album is always the default
sentinel; and either the resolved artist is the sentinel and no album
lookup happens, or exactly one `search_lastfm_album_info` lookup keyed
by the resolved `(artist, title)` is attempted and the year is
overwritten exactly when it returns a non-empty year. -/
theorem resolver_fallback_album_year
    (albumResp : String → String → Option LfmAlbumData)
    (r : SourceRecord) (query : String) :
    (get_best_metadata albumResp none none (some r) query).album =
      "Unknown Album" ∧
    ((get_best_metadata albumResp none none (some r) query).artist =
        "Unknown Artist" ∧
      get_best_metadata_lookups albumResp none none (some r) query = [] ∨
     get_best_metadata_lookups albumResp none none (some r) query =
        [((get_best_metadata albumResp none none (some r) query).artist,
          (get_best_metadata albumResp none none (some r) query).title)] ∧
      (get_best_metadata albumResp none none (some r) query).year =
        (if search_lastfm_album_info
              (albumResp (r.artist.getD "Unknown Artist")
                (r.title.getD "Unknown Title")) = ""
         then ""
         else search_lastfm_album_info
              (albumResp (r.artist.getD "Unknown Artist")
                (r.title.getD "Unknown Title")))) := by
  simp only [get_best_metadata, get_best_metadata_lookups, get_best_metadata_aux,
    defaultMetadata]
  split_ifs with h1 h2 h3 <;>
    first
      | exact absurd h3 h2
      | exact absurd (not_not.mp h2) h3
      | exact ⟨rfl, Or.inr ⟨rfl, rfl⟩⟩
      | exact ⟨rfl, Or.inl ⟨not_not.mp h1, rfl⟩⟩

theorem parsed_artist_join (t : String) :
    (extract_metadata_from_youtube_title t).artist =
      joinComma (extract_metadata_from_youtube_title t).artists := by
  cases h : matchTitlePatterns (pyStrip (cleanYoutubeTitle t)).data with
  | some g =>
    cases g with
    | mk g1 g2 => simp only [extract_metadata_from_youtube_title, h]
  | none =>
    simp only [extract_metadata_from_youtube_title, h]
    rfl


/-- The fallback branch of the resolver preserves the parsed title's
artist/artist-list coherence (helper for the C7 theorem). -/
theorem resolver_yt_branch_join
    (albumResp : String → String → Option LfmAlbumData) (query : String)
    (p : ParsedTitle) (hp : p.artist = joinComma p.artists) :
    (get_best_metadata albumResp none none (some (mkYoutubeRecord p))
      query).artist =
    joinComma (get_best_metadata albumResp none none (some (mkYoutubeRecord p))
      query).artists := by
  simp only [get_best_metadata, get_best_metadata_aux, mkYoutubeRecord,
    Option.getD_some]
  split_ifs with h1 h2 <;> exact hp

/-- C7: for every combination of present and absent provider inputs
whose records come from the three producers (Spotify playlist entry,
Last.fm search hit, parsed YouTube title), the record returned by
`get_best_metadata` has `artist` equal to the comma-join of its
`artistList`. -/
theorem resolver_artist_join_invariant
    (albumResp : String → String → Option LfmAlbumData) (query : String)
    (useSp useLf useYt : Bool)
    (spName : String) (spArtists : List String) (spAlbum spRelease : String)
    (lfName lfArtist : String) (lfInfo : LfmTrackInfo)
    (ytTitle : String) :
    (get_best_metadata albumResp
      (if useSp then some (mkSpotifyRecord spName spArtists spAlbum spRelease)
       else none)
      (if useLf then some (mkLastfmRecord lfName lfArtist lfInfo) else none)
      (if useYt then
        some (mkYoutubeRecord (extract_metadata_from_youtube_title ytTitle))
       else none)
      query).artist =
    joinComma (get_best_metadata albumResp
      (if useSp then some (mkSpotifyRecord spName spArtists spAlbum spRelease)
       else none)
      (if useLf then some (mkLastfmRecord lfName lfArtist lfInfo) else none)
      (if useYt then
        some (mkYoutubeRecord (extract_metadata_from_youtube_title ytTitle))
       else none)
      query).artists := by
  cases useSp with
  | true => cases useLf <;> cases useYt <;> rfl
  | false =>
    cases useLf with
    | true => cases useYt <;> rfl
    | false =>
      cases useYt with
      | false => rfl
      | true =>
        exact resolver_yt_branch_join albumResp query
          (extract_metadata_from_youtube_title ytTitle)
          (parsed_artist_join ytTitle)

/-- C4 (amended): the title parser is total and returns
`["Unknown Artist"]` whenever no separator pattern matches; every
returned artist name is non-empty; but when a pattern does match the
artist list is the filtered split of the artist segment and can be
empty. -/
theorem parser_total_and_artists (s : String) :
    ((extract_metadata_from_youtube_title s).artists.all
      (fun a => !(a = ""))) = true ∧
    ((extract_metadata_from_youtube_title s).source = "youtube_fallback" →
      (extract_metadata_from_youtube_title s).artists = ["Unknown Artist"]) := by
  cases h : matchTitlePatterns (pyStrip (cleanYoutubeTitle s)).data with
  | some g =>
    cases g with
    | mk g1 g2 =>
      constructor
      · simp only [extract_metadata_from_youtube_title, h, splitArtists]
        rw [List.all_eq_true]
        intro a ha
        simp only [List.mem_filter] at ha
        simpa using ha.2
      · simp only [extract_metadata_from_youtube_title, h]
        intro hc
        exact absurd hc (by decide)
  | none =>
    constructor
    · simp only [extract_metadata_from_youtube_title, h]
      decide
    · intro _
      simp only [extract_metadata_from_youtube_title, h]

/-- C4 witness: on an input with no separator the parser returns the
fallback artist list. -/
theorem parser_total_and_artists_witness :
    (extract_metadata_from_youtube_title "no separators here").artists =
      ["Unknown Artist"] := by
  have h := parser_total_and_artists "no separators here"
  exact h.2 rfl

/-- C4 counterexample: on the raw title `", - B"` the first separator
pattern matches with artist segment `","`, which splits into only empty
parts, so the returned artist list is empty — refuting the claim that
`artistList` is always non-empty. -/
theorem parser_empty_artists_counterexample :
    (extract_metadata_from_youtube_title ", - B").artists = [] ∧
    (extract_metadata_from_youtube_title ", - B").artist = "" ∧
    (extract_metadata_from_youtube_title ", - B").source = "youtube" :=
  ⟨rfl, rfl, rfl⟩

/-- C6 counterexample: `get_lastfm_track_info` returns the album
`attr.year` field verbatim, not a 4-digit run extracted from a date
string: on a response whose year field holds the date string
`"01 Jan 2020, 00:00"`, the claimed extraction would give `"2020"`, but
the function returns the whole string. -/
theorem lastfm_track_info_counterexample :
    (get_lastfm_track_info
      (some ⟨some ⟨some "El Disco", some ⟨some "01 Jan 2020, 00:00"⟩⟩⟩)).year =
      "01 Jan 2020, 00:00" ∧
    first4DigitRun ("01 Jan 2020, 00:00".data) = some "2020" ∧
    (get_lastfm_track_info
      (some ⟨some ⟨some "El Disco", some ⟨some "01 Jan 2020, 00:00"⟩⟩⟩)).year ≠
      "2020" :=
  ⟨rfl, rfl, by decide⟩

/-- C6 (amended): the second lookup (`get_lastfm_track_info`) returns
the album `attr` `year` field verbatim when album data is present (empty
string when the `attr` or album data is absent); the
first-4-consecutive-digit extraction from a human-readable publication
date is performed by the album-info lookup `search_lastfm_album_info`
instead. -/
theorem lastfm_track_info_year_verbatim
    (albTitle : Option String) (y p : String) :
    (get_lastfm_track_info (some ⟨some ⟨albTitle, some ⟨some y⟩⟩⟩)).year = y ∧
    (get_lastfm_track_info (some ⟨some ⟨albTitle, none⟩⟩)).year = "" ∧
    (get_lastfm_track_info none).year = "" ∧
    search_lastfm_album_info (some ⟨some ⟨some p⟩⟩) =
      (first4DigitRun p.data).getD "" :=
  ⟨rfl, rfl, rfl, rfl⟩

/-! ## Dash-split lemmas (C3) and playlist round trip (C9) -/

theorem splitAtFirstChar_append (c : Char) (l1 l2 : List Char) (h : c ∉ l1) :
    splitAtFirstChar c (l1 ++ c :: l2) = some (l1, l2) := by
  induction l1 with
  | nil => simp [splitAtFirstChar]
  | cons a as ih =>
    have ha : ¬ a = c := fun hc => h (hc ▸ List.mem_cons_self a as)
    simp only [List.cons_append, splitAtFirstChar, if_neg ha, List.append_eq]
    rw [ih (fun hc => h (List.mem_cons_of_mem a hc))]
    rfl

theorem stripR_append_space (l : List Char) (c : Char) (hc : pySpace c = true) :
    stripR (l ++ [c]) = stripR l := by
  unfold stripR
  rw [List.reverse_append]
  simp only [List.reverse_cons, List.reverse_nil, List.nil_append,
    List.singleton_append, List.dropWhile_cons, hc, if_true]

theorem pyStripList_ne_nil_of_pyStrip_ne (s : String) (h : pyStrip s ≠ "") :
    pyStripList s.data ≠ [] := by
  intro hc
  apply h
  unfold pyStrip
  rw [hc]

theorem stripL_ne_nil_of_pyStripList_ne (l : List Char)
    (h : pyStripList l ≠ []) : stripL l ≠ [] := by
  intro hc
  apply h
  unfold pyStripList
  rw [hc]
  rfl

theorem exists_not_space_of_stripL_ne_nil (l : List Char)
    (h : stripL l ≠ []) : ∃ x ∈ l, pySpace x = false := by
  cases hL : stripL l with
  | nil => exact absurd hL h
  | cons c t =>
    have hmem : c ∈ stripL l := by
      rw [hL]
      exact List.mem_cons_self c t
    exact ⟨c, mem_of_mem_dropWhile pySpace l c hmem,
      dropWhile_head_false pySpace l c t hL⟩


/-- C3: on a raw title `"<A> - <B>"` where `A` has no dash, no artist
separators (formalised: the artist splitter leaves `A` whole), and the
title carries no trailing parenthetical or bracketed suffix (formalised:
the cleaning pass is the identity), the parser returns title `B` and
artist list `[A]`, both trimmed.  The newline-freedom hypotheses mark
the single-line domain on which the regex embedding is faithful. -/
theorem extract_dash_split
    (A B : String)
    (hdash : '-' ∉ A.data)
    (hA : pyStrip A ≠ "")
    (hB : pyStrip B ≠ "")
    (hclean : cleanYoutubeTitle (A ++ " - " ++ B) = A ++ " - " ++ B)
    (hsep : splitArtists (pyStrip A) = [pyStrip A])
    (hnlA : '\n' ∉ A.data) (hnlB : '\n' ∉ B.data) :
    (extract_metadata_from_youtube_title (A ++ " - " ++ B)).title =
      pyStrip B ∧
    (extract_metadata_from_youtube_title (A ++ " - " ++ B)).artists =
      [pyStrip A] := by
  have hA' := pyStripList_ne_nil_of_pyStrip_ne A hA
  have hB' := pyStripList_ne_nil_of_pyStrip_ne B hB
  have hAL := stripL_ne_nil_of_pyStripList_ne A.data hA'
  have hBL := stripL_ne_nil_of_pyStripList_ne B.data hB'
  have hexA := exists_not_space_of_stripL_ne_nil A.data hAL
  have hexB := exists_not_space_of_stripL_ne_nil B.data hBL
  have hdata : (A ++ " - " ++ B).data = A.data ++ ([' ', '-', ' '] ++ B.data) := by
    rw [String.data_append, String.data_append, List.append_assoc]
  have hstrip : pyStripList (A ++ " - " ++ B).data =
      stripL A.data ++ (' ' :: '-' :: ' ' :: stripR B.data) := by
    rw [hdata]
    unfold pyStripList
    rw [stripL_append A.data _ hexA]
    rw [stripR_append (stripL A.data) _
      ⟨'-', List.mem_append_left B.data (by decide), by decide⟩]
    rw [stripR_append [' ', '-', ' '] B.data hexB]
    rfl
  obtain ⟨c, t, hALeq⟩ : ∃ c t, stripL A.data = c :: t := by
    cases h : stripL A.data with
    | nil => exact absurd h hAL
    | cons c t => exact ⟨c, t, rfl⟩
  have hchead : pySpace c = false :=
    dropWhile_head_false pySpace A.data c t hALeq
  have hnotin : '-' ∉ stripL A.data ++ [' '] := by
    intro hmem
    rcases List.mem_append.mp hmem with h1 | h1
    · exact hdash (mem_of_mem_dropWhile pySpace A.data '-' h1)
    · exact absurd (List.mem_singleton.mp h1) (by decide)
  have hsplit : splitAtFirstChar '-'
      (stripL A.data ++ (' ' :: '-' :: ' ' :: stripR B.data)) =
      some (stripL A.data ++ [' '], ' ' :: stripR B.data) := by
    have hre : stripL A.data ++ (' ' :: '-' :: ' ' :: stripR B.data) =
        (stripL A.data ++ [' ']) ++ '-' :: (' ' :: stripR B.data) := by
      simp
    rw [hre]
    exact splitAtFirstChar_append '-' _ _ hnotin
  have hd : (' ' :: stripR B.data).dropWhile pySpace = pyStripList B.data := by
    rw [List.dropWhile_cons]
    simp only [show pySpace ' ' = true from rfl, if_true]
    show stripL (stripR B.data) = pyStripList B.data
    rw [stripL_stripR_comm]
    rfl
  have hws : wsSkipGroup (' ' :: stripR B.data) = some (pyStripList B.data) := by
    show (if (' ' :: stripR B.data).dropWhile pySpace = [] then
        some ((' ' :: stripR B.data).drop ((' ' :: stripR B.data).length - 1))
      else some ((' ' :: stripR B.data).dropWhile pySpace)) =
      some (pyStripList B.data)
    rw [hd, if_neg hB']
  have hmss : matchSimpleSep '-'
      (stripL A.data ++ (' ' :: '-' :: ' ' :: stripR B.data)) =
      some (stripL A.data ++ [' '], pyStripList B.data) := by
    unfold matchSimpleSep
    rw [hsplit]
    show (if stripL A.data ++ [' '] = [] then none
      else (wsSkipGroup (' ' :: stripR B.data)).map
        (fun g => (stripL A.data ++ [' '], g))) =
      some (stripL A.data ++ [' '], pyStripList B.data)
    rw [if_neg (by simp), hws]
    rfl
  have hmtp : matchTitlePatterns
      (pyStrip (cleanYoutubeTitle (A ++ " - " ++ B))).data =
      some (stripL A.data ++ [' '], pyStripList B.data) := by
    rw [hclean]
    have hsd : (pyStrip (A ++ " - " ++ B)).data =
        stripL A.data ++ (' ' :: '-' :: ' ' :: stripR B.data) := by
      show pyStripList (A ++ " - " ++ B).data = _
      exact hstrip
    rw [hsd]
    unfold matchTitlePatterns
    rw [hmss]
  have hraw : pyStrip ⟨stripL A.data ++ [' ']⟩ = pyStrip A := by
    show (⟨pyStripList (stripL A.data ++ [' '])⟩ : String) =
      ⟨pyStripList A.data⟩
    congr 1
    unfold pyStripList
    have h1 : stripL (stripL A.data ++ [' ']) = stripL A.data ++ [' '] := by
      rw [hALeq]
      show stripL (c :: (t ++ [' '])) = (c :: t) ++ [' ']
      rw [stripL_cons_of_not_space c (t ++ [' ']) hchead]
      rfl
    rw [h1, stripR_append_space _ ' ' rfl]
  have htitle : pyStrip ⟨pyStripList B.data⟩ = pyStrip B := by
    show (⟨pyStripList (pyStripList B.data)⟩ : String) = ⟨pyStripList B.data⟩
    rw [pyStripList_idem]
  constructor
  · simp only [extract_metadata_from_youtube_title, hmtp]
    exact htitle
  · simp only [extract_metadata_from_youtube_title, hmtp]
    rw [hraw, hsep]


/-- C3 witness: a concrete dash-split title. -/
theorem extract_dash_split_witness :
    (extract_metadata_from_youtube_title
      ("Bad Bunny" ++ " - " ++ "Dakiti")).title = pyStrip "Dakiti" ∧
    (extract_metadata_from_youtube_title
      ("Bad Bunny" ++ " - " ++ "Dakiti")).artists = [pyStrip "Bad Bunny"] :=
  extract_dash_split "Bad Bunny" "Dakiti" (by decide) (by decide) (by decide)
    (by decide) (by decide) (by decide) (by decide)

theorem splitLines_append_line (l rest : List Char) (h : '\n' ∉ l) :
    splitLines (l ++ '\n' :: rest) = l :: splitLines rest := by
  induction l with
  | nil => simp [splitLines]
  | cons c t ih =>
    have hc : ¬ c = '\n' := fun e => h (e ▸ List.mem_cons_self c t)
    simp only [List.cons_append, splitLines, if_neg hc, List.append_eq]
    rw [ih (fun hm => h (List.mem_cons_of_mem c hm))]

theorem splitLines_newline (rest : List Char) :
    splitLines ('\n' :: rest) = [] :: splitLines rest := by
  simp [splitLines]

theorem splitLines_queriesText (qs : List String)
    (h : ∀ q ∈ qs, '\n' ∉ q.data) :
    splitLines (queriesText qs).data = (qs.map String.data) ++ [[]] := by
  induction qs with
  | nil => rfl
  | cons q qs ih =>
    have hd : (queriesText (q :: qs)).data =
        q.data ++ '\n' :: (queriesText qs).data := by
      show (q ++ "\n" ++ queriesText qs).data = _
      rw [String.data_append, String.data_append, List.append_assoc]
      rfl
    rw [hd, splitLines_append_line q.data _ (h q (List.mem_cons_self q qs)),
      ih (fun x hx => h x (List.mem_cons_of_mem q hx))]
    rfl

theorem keepLine_hash (t : List Char) : keepLine ('#' :: t) = none := by
  unfold keepLine
  have hs : pySpace '#' = false := rfl
  rw [show pyStripList ('#' :: t) = stripR ('#' :: t) from by
    unfold pyStripList
    rw [stripL_cons_of_not_space '#' t hs]]
  rcases stripR_cons_of_not_space '#' t hs with ⟨t', ht'⟩
  rw [ht']
  rfl

theorem keepLine_query (d : List Char) (hstrip : pyStripList d = d)
    (hne : d ≠ []) (hhash : d.head? ≠ some '#') :
    keepLine d = some { title := ⟨d⟩, query := ⟨d⟩, artist := "" } := by
  unfold keepLine
  rw [hstrip]
  cases d with
  | nil => exact absurd rfl hne
  | cons c t =>
    have hc : ¬ c = '#' := by
      intro e
      exact hhash (by rw [e]; rfl)
    show (if c = '#' then none
      else some ({ title := ⟨c :: t⟩, query := ⟨c :: t⟩,
                   artist := "" } : FileTrack)) = _
    rw [if_neg hc]

theorem filterMap_keepLine_queries (qs : List String)
    (h : ∀ q ∈ qs, pyStrip q = q ∧ q ≠ "" ∧ q.data.head? ≠ some '#') :
    List.filterMap keepLine ((qs.map String.data) ++ [[]]) =
      qs.map (fun q => ({ title := q, query := q, artist := "" } : FileTrack)) := by
  induction qs with
  | nil => rfl
  | cons q qs ih =>
    obtain ⟨h1, h2, h3⟩ := h q (List.mem_cons_self q qs)
    have hne : q.data ≠ [] := by
      intro e
      exact h2 (congrArg String.mk e)
    simp only [List.map_cons, List.cons_append, List.filterMap_cons]
    rw [keepLine_query q.data (congrArg String.data h1) hne h3]
    rw [ih (fun x hx => h x (List.mem_cons_of_mem q hx))]


/-- C9 (amended): writing a query list to a playlist file and re-reading
it returns exactly the written queries in order, provided each query is
newline-free, non-empty, already trimmed, and does not start with the
comment marker `#` (queries violating these are altered or dropped by
the trimming comment-skipping reader). -/
theorem playlist_roundtrip
    (url created : String) (n : Nat) (qs : List String)
    (hurl : '\n' ∉ url.data)
    (hcreated : '\n' ∉ created.data)
    (hn : '\n' ∉ (toString n).data)
    (hq : ∀ q ∈ qs, pyStrip q = q ∧ q ≠ "" ∧ q.data.head? ≠ some '#' ∧
      '\n' ∉ q.data) :
    (load_tracks_from_file (create_playlist_content url n created qs)).map
      FileTrack.query = qs := by
  have hd : (create_playlist_content url n created qs).data =
      "# Playlist automatically extracted from Spotify".data ++ '\n' ::
      (("# URL: " ++ url).data ++ '\n' ::
      (("# Total tracks: " ++ toString n).data ++ '\n' ::
      ("# Method: Official Spotify API".data ++ '\n' ::
      (("# Created: " ++ created).data ++ '\n' :: '\n' ::
      (queriesText qs).data)))) := by
    simp only [create_playlist_content, String.data_append, List.append_assoc]
    rfl
  unfold load_tracks_from_file
  rw [hd]
  rw [splitLines_append_line _ _ (by decide)]
  rw [splitLines_append_line _ _ (by
    rw [String.data_append]
    intro hm
    rcases List.mem_append.mp hm with h | h
    · exact absurd h (by decide)
    · exact hurl h)]
  rw [splitLines_append_line _ _ (by
    rw [String.data_append]
    intro hm
    rcases List.mem_append.mp hm with h | h
    · exact absurd h (by decide)
    · exact hn h)]
  rw [splitLines_append_line _ _ (by decide)]
  rw [splitLines_append_line _ _ (by
    rw [String.data_append]
    intro hm
    rcases List.mem_append.mp hm with h | h
    · exact absurd h (by decide)
    · exact hcreated h)]
  rw [splitLines_newline]
  rw [splitLines_queriesText qs (fun q hqm => (hq q hqm).2.2.2)]
  rw [List.filterMap_cons_none (by decide)]
  rw [List.filterMap_cons_none (by
    rw [show ("# URL: " ++ url).data = '#' :: (" URL: ".data ++ url.data) from by
      rw [String.data_append]
      rfl]
    exact keepLine_hash _)]
  rw [List.filterMap_cons_none (by
    rw [show ("# Total tracks: " ++ toString n).data =
        '#' :: (" Total tracks: ".data ++ (toString n).data) from by
      rw [String.data_append]
      rfl]
    exact keepLine_hash _)]
  rw [List.filterMap_cons_none (by decide)]
  rw [List.filterMap_cons_none (by
    rw [show ("# Created: " ++ created).data =
        '#' :: (" Created: ".data ++ created.data) from by
      rw [String.data_append]
      rfl]
    exact keepLine_hash _)]
  rw [List.filterMap_cons_none (show keepLine [] = none from rfl)]
  rw [filterMap_keepLine_queries qs
    (fun q hqm => ⟨(hq q hqm).1, (hq q hqm).2.1, (hq q hqm).2.2.1⟩)]
  rw [List.map_map]
  show qs.map (fun q => q) = qs
  simp

/-- C9 counterexample: a query carrying surrounding whitespace is not
recovered verbatim: the reader trims it, so the round trip returns a
different sequence (and the written line is not a comment line). -/
theorem playlist_roundtrip_counterexample :
    (load_tracks_from_file (create_playlist_content "u" 1 "t" [" x "])).map
      FileTrack.query = ["x"] ∧ (["x"] : List String) ≠ [" x "] :=
  ⟨by decide, by decide⟩

/-- C9 witness: the round trip is exact on well-formed queries. -/
theorem playlist_roundtrip_witness :
    (load_tracks_from_file (create_playlist_content "https://s" 2 "2025-01-01"
      ["Bad Bunny Dakiti", "Quevedo Bzrp"])).map FileTrack.query =
      ["Bad Bunny Dakiti", "Quevedo Bzrp"] :=
  playlist_roundtrip "https://s" "2025-01-01" 2
    ["Bad Bunny Dakiti", "Quevedo Bzrp"]
    (by decide) (by decide) (by decide) (by decide)


end TuneHarvester
